import Mathlib

/-!
Verification of the lead-review dashboard's data pipeline (`src/App.jsx`):
contact deduplication (`getDisplayDecisionMakers`), search haystack
construction (`getSearchHaystack`), the query filter (`filteredLeads`), and
CSV serialization (`escapeCsv` / `buildCsv`).  JavaScript strings are
modelled as `List Char`; absent (`undefined`) values as `Option`.
-/

namespace LeadsApp

/-- A JavaScript string, modelled as a list of characters. -/
abbrev Str := List Char

/-- A contact record: a decision maker or the head of data.
`linkedin_url` and `email` are optional in the source data. -/
structure Contact where
  name : Str
  role : Str
  linkedin_url : Option Str
  email : Option Str
  deriving DecidableEq

/-- A lead record.  `url`, `decision_makers` and `head_of_data` may be absent. -/
structure Lead where
  company : Str
  url : Option Str
  decision_makers : Option (List Contact)
  head_of_data : Option Contact
  deriving DecidableEq

/-- JS `haystack.includes(needle)`: substring containment. -/
def jsIncludes (hay needle : Str) : Bool :=
  decide (needle <:+: hay)

/-- The whitespace characters stripped by JS `String.prototype.trim`
(modelled on the common ASCII whitespace characters). -/
def jsIsSpace (c : Char) : Bool :=
  c = ' ' || c = '\t' || c = '\n' || c = '\r'

/-- JS `String.prototype.trim`: strip whitespace from both ends. -/
def jsTrim (s : Str) : Str :=
  (s.dropWhile jsIsSpace).rdropWhile jsIsSpace

/-- JS `String.prototype.toLowerCase` on one character, modelled on ASCII
letters (non-ASCII characters are left unchanged). -/
def jsToLowerChar (c : Char) : Char :=
  if h : 65 ≤ c.toNat ∧ c.toNat ≤ 90 then
    ⟨⟨⟨c.toNat + 32, by omega⟩⟩, by
      refine Or.inl ?_
      show c.toNat + 32 < 55296
      omega⟩
  else c

/-- JS `String.prototype.toLowerCase`, character by character. -/
def jsToLower (s : Str) : Str :=
  s.map jsToLowerChar

/-- JS `Array.prototype.join(sep)` (callers substitute `""` for
`undefined` entries, matching `Array.join`'s treatment of `undefined`). -/
def joinWith (sep : Str) : List Str → Str
  | [] => []
  | [x] => x
  | x :: y :: rest => x ++ sep ++ joinWith sep (y :: rest)

/-- Behavior of `escapeCsv` (App.jsx lines 4–11): `null`/`undefined` become the empty
string; a field containing `"`,`,` or a newline is wrapped in double quotes
with internal quotes doubled; anything else is emitted unchanged. -/
def containsSpecialChar (s : Str) : Bool :=
  s.any fun c => c = '"' || c = ',' || c = '\n'

/-- The regex replace `stringValue.replace(/"/g, '""')`. -/
def doubleQuotesIn : Str → Str
  | [] => []
  | c :: rest => (if c = '"' then ['"', '"'] else [c]) ++ doubleQuotesIn rest

/-- Function `escapeCsv` from App.jsx. -/
def escapeCsv : Option Str → Str
  | none => []
  | some s =>
    if containsSpecialChar s then '"' :: (doubleQuotesIn s ++ ['"']) else s

/-- Function `isValidEmail` (App.jsx lines 13–14): the value is a string containing
`@`.  An absent email is not a string, hence invalid. -/
def isValidEmail : Option Str → Bool
  | none => false
  | some s => decide ('@' ∈ s)

/-- The dedup key `` `${dm.name}-${dm.role}-${dm.linkedin_url || ''}` `` used
by `getDisplayDecisionMakers` (App.jsx line 32): the three parts joined by
`'-'`, with the empty string substituted for a falsy `linkedin_url`. -/
def dedupKey (dm : Contact) : Str :=
  dm.name ++ '-' :: dm.role ++ '-' :: dm.linkedin_url.getD []

/-- The concatenation `[...decisionMakers, ...headOfData]` (App.jsx
lines 27–29): raw decision makers followed by the head of data if present. -/
def combinedContacts (lead : Lead) : List Contact :=
  lead.decision_makers.getD [] ++
    (match lead.head_of_data with
     | some h => [h]
     | none => [])

/-- The `combined.filter` loop with its `seen` set (App.jsx lines 30–36):
keep a contact only when its key has not been seen before. -/
def dedupByKey : List Contact → List Str → List Contact
  | [], _ => []
  | dm :: rest, seen =>
    if dedupKey dm ∈ seen then dedupByKey rest seen
    else dm :: dedupByKey rest (dedupKey dm :: seen)

/-- Function `getDisplayDecisionMakers` (App.jsx lines 26–37). -/
def getDisplayDecisionMakers (lead : Lead) : List Contact :=
  dedupByKey (combinedContacts lead) []

/-- The spec's composite dedup key: the tuple
`(name, role, linkedin_url-or-empty)` (spec §3 and §4.1).  Reference
definition for comparing the spec's normalizer with the code's. -/
def specCompositeKey (dm : Contact) : Str × Str × Str :=
  (dm.name, dm.role, dm.linkedin_url.getD [])

/-- Dedup as the spec words it: first occurrence per composite tuple key. -/
def specDedupByCompositeKey : List Contact → List (Str × Str × Str) → List Contact
  | [], _ => []
  | dm :: rest, seen =>
    if specCompositeKey dm ∈ seen then specDedupByCompositeKey rest seen
    else dm :: specDedupByCompositeKey rest (specCompositeKey dm :: seen)

/-- Normalization as described by the spec (reference definition for C1). -/
def specNormalize (lead : Lead) : List Contact :=
  specDedupByCompositeKey (combinedContacts lead) []

/-- Expression `decisionMakers.map(dm => dm.name).join(' | ')` (App.jsx line 57). -/
def decisionMakerNames (dms : List Contact) : Str :=
  joinWith " | ".data (dms.map Contact.name)

/-- Expression `decisionMakers.map(dm => dm.role).join(' | ')` (App.jsx line 58). -/
def decisionMakerRoles (dms : List Contact) : Str :=
  joinWith " | ".data (dms.map Contact.role)

/-- Expression `decisionMakers.map(dm => dm.linkedin_url).join(' | ')` (App.jsx
lines 59–61): `Array.join` renders an `undefined` entry as an empty string,
so the slot is kept. -/
def decisionMakerLinkedins (dms : List Contact) : Str :=
  joinWith " | ".data (dms.map fun dm => dm.linkedin_url.getD [])

/-- The per-contact contribution `isValidEmail(dm.email) ? dm.email : ''`
(App.jsx lines 63 and 110). -/
def emailOrEmpty (dm : Contact) : Str :=
  if isValidEmail dm.email then dm.email.getD [] else []

/-- Expression `decisionMakers.map(...).filter(Boolean).join(' | ')` (App.jsx
lines 62–65): invalid emails become empty strings and are then dropped by
`filter(Boolean)`. -/
def decisionMakerEmails (dms : List Contact) : Str :=
  joinWith " | ".data ((dms.map emailOrEmpty).filter fun s => !s.isEmpty)

/-- Expression `isValidEmail(headOfData?.email) ? headOfData.email : ''` (App.jsx
lines 66–68 and 114). -/
def headOfDataEmailField (lead : Lead) : Str :=
  if isValidEmail (lead.head_of_data.bind Contact.email) then
    (lead.head_of_data.bind Contact.email).getD []
  else []

/-- The ten entries of one CSV row before escaping (App.jsx lines 70–81).
Only `url` can be `undefined` when it reaches `escapeCsv`. -/
def csvFields (lead : Lead) : List (Option Str) :=
  [some lead.company,
   lead.url,
   some (decisionMakerNames (getDisplayDecisionMakers lead)),
   some (decisionMakerRoles (getDisplayDecisionMakers lead)),
   some (decisionMakerLinkedins (getDisplayDecisionMakers lead)),
   some (decisionMakerEmails (getDisplayDecisionMakers lead)),
   some ((lead.head_of_data.map Contact.name).getD []),
   some ((lead.head_of_data.map Contact.role).getD []),
   some ((lead.head_of_data.bind Contact.linkedin_url).getD []),
   some (headOfDataEmailField lead)]

/-- One serialized CSV row: the ten fields escaped and comma-joined
(App.jsx lines 82–83). -/
def csvRow (lead : Lead) : Str :=
  joinWith [','] ((csvFields lead).map escapeCsv)

/-- The fixed header column names (App.jsx lines 40–51). -/
def csvHeaders : List Str :=
  ["company".data, "url".data, "decision_makers".data,
   "decision_maker_roles".data, "decision_maker_linkedins".data,
   "decision_maker_emails".data, "head_of_data_name".data,
   "head_of_data_role".data, "head_of_data_linkedin".data,
   "head_of_data_email".data]

/-- The serialized header line `headers.join(',')` (App.jsx line 86). -/
def csvHeaderLine : Str :=
  joinWith [','] csvHeaders

/-- Function `buildCsv` (App.jsx lines 39–87): header line and one row per lead,
newline-joined. -/
def buildCsv (rows : List Lead) : Str :=
  joinWith ['\n'] (csvHeaderLine :: rows.map csvRow)

/-- JS `csv.split('\n')`. -/
def splitOnNl : Str → List Str
  | [] => [[]]
  | c :: rest =>
    match splitOnNl rest with
    | [] => [[]]
    | p :: ps => if c = '\n' then [] :: p :: ps else (c :: p) :: ps

/-- The eight entries joined by `' '` in `getSearchHaystack` (App.jsx
lines 104–115); `Array.join` renders an `undefined` `lead.url` as the
empty string. -/
def haystackParts (lead : Lead) : List Str :=
  [lead.company,
   lead.url.getD [],
   joinWith [' '] ((getDisplayDecisionMakers lead).map Contact.name),
   joinWith [' '] ((getDisplayDecisionMakers lead).map Contact.role),
   joinWith [' '] ((getDisplayDecisionMakers lead).map emailOrEmpty),
   (lead.head_of_data.map Contact.name).getD [],
   (lead.head_of_data.map Contact.role).getD [],
   headOfDataEmailField lead]

/-- Function `getSearchHaystack` (App.jsx lines 100–118): the space-joined,
lowercased searchable text of a lead. -/
def getSearchHaystack (lead : Lead) : Str :=
  jsToLower (joinWith [' '] (haystackParts lead))

/-- Predicate `matchesQuery` (App.jsx lines 149–150): empty normalized query matches
everything, otherwise substring containment in the haystack. -/
def matchesQuery (normalizedQuery : Str) (lead : Lead) : Bool :=
  normalizedQuery.isEmpty || jsIncludes (getSearchHaystack lead) normalizedQuery

/-- Predicate `matchesDecisionMakers` (App.jsx lines 151–152): the raw
`decision_makers.length ?? 0`, compared against the threshold. -/
def matchesDecisionMakers (minCount : Nat) (lead : Lead) : Bool :=
  decide ((lead.decision_makers.getD []).length ≥ minCount)

/-- Predicate `matchesHeadOfData` (App.jsx line 153). -/
def matchesHeadOfData (requireHead : Bool) (lead : Lead) : Bool :=
  !requireHead || lead.head_of_data.isSome

/-- The conjunction of the three per-lead predicates (App.jsx line 155). -/
def leadPasses (normalizedQuery : Str) (minCount : Nat) (requireHead : Bool)
    (lead : Lead) : Bool :=
  matchesQuery normalizedQuery lead && matchesDecisionMakers minCount lead &&
    matchesHeadOfData requireHead lead

/-- Function `filteredLeads` (App.jsx lines 144–159): normalize the query
(`query.trim().toLowerCase()`), then filter the lead list. -/
def filteredLeads (leads : List Lead) (query : Str) (minCount : Nat)
    (requireHead : Bool) : List Lead :=
  leads.filter (leadPasses (jsToLower (jsTrim query)) minCount requireHead)

/-- Code-point comparison `a ≤ b` on strings: the model of the ascending
`localeCompare` order for the ASCII company names of the dataset. -/
def strLe : Str → Str → Bool
  | [], _ => true
  | _ :: _, [] => false
  | a :: as, b :: bs =>
    if a.toNat < b.toNat then true
    else if b.toNat < a.toNat then false
    else strLe as bs

/-- Modelled from the spec: the ascending company order of the Query
Engine's `sortBy: company` mode (spec §4.3); the sort is absent from src
(no call site of `filteredLeads` sorts), and `localeCompare` is modelled as
code-point comparison. -/
def companyLe (a b : Lead) : Prop :=
  strLe a.company b.company = true

instance : DecidableRel companyLe := fun a b =>
  decEq (strLe a.company b.company) true

/-- Modelled from the spec: `query` with `sortBy: company` (spec §4.3) —
the filter of App.jsx followed by a stable ascending sort on `company`. -/
def queryByCompany (leads : List Lead) (query : Str) (minCount : Nat)
    (requireHead : Bool) : List Lead :=
  List.insertionSort companyLe (filteredLeads leads query minCount requireHead)

/-- The characterization of a contact's exported email: `some` of the email
exactly when it is a string containing `@` (spec §4.4). -/
def validEmailOf (dm : Contact) : Option Str :=
  match dm.email with
  | some e => if '@' ∈ e then some e else none
  | none => none

/-- Contact used in the C1 counterexample: name `A-B`, role `C`. -/
def c1ContactA : Contact := ⟨"A-B".data, "C".data, none, none⟩

/-- Contact used in the C1 counterexample: name `A`, role `B-C`. -/
def c1ContactB : Contact := ⟨"A".data, "B-C".data, none, none⟩

/-- Lead whose two contacts have distinct composite keys but the same
hyphen-joined string key `A-B-C-`. -/
def c1CollisionLead : Lead := ⟨"X".data, none, some [c1ContactA, c1ContactB], none⟩

/-- The spec's dedup-correctness example lead (spec §8). -/
def c1ExampleLead : Lead :=
  ⟨"X".data, none, some [⟨"A".data, "CTO".data, none, none⟩],
    some ⟨"A".data, "CTO".data, none, none⟩⟩

/-- Lead with the same contact listed twice among its decision makers. -/
def c7DupLead : Lead :=
  ⟨"X".data, none,
    some [⟨"A".data, "CTO".data, none, none⟩, ⟨"A".data, "CTO".data, none, none⟩], none⟩

/-- Lead with every optional field absent. -/
def c7NoneLead : Lead := ⟨"Y".data, none, none, none⟩

/-- Two-lead list used in the C8 witness. -/
def c8Leads : List Lead :=
  [⟨"Zeta".data, none, some [], none⟩,
   ⟨"Alpha".data, none, some [⟨"Jo".data, "VP".data, none, none⟩], none⟩]

/-! ### Lemmas about the dedup pass of `getDisplayDecisionMakers` -/

theorem dedupByKey_sublist (l : List Contact) (seen : List Str) :
    (dedupByKey l seen).Sublist l := by
  induction l generalizing seen with
  | nil => simp [dedupByKey]
  | cons dm rest ih =>
    simp only [dedupByKey]
    split
    · exact List.Sublist.cons dm (ih seen)
    · exact List.Sublist.cons₂ dm (ih (dedupKey dm :: seen))

theorem dedupByKey_filter (k : Str) (l : List Contact) (seen : List Str) :
    (dedupByKey l seen).filter (fun dm => decide (dedupKey dm = k)) =
      if k ∈ seen then [] else ((l.filter fun dm => decide (dedupKey dm = k)).take 1) := by
  induction l generalizing seen with
  | nil => simp [dedupByKey]
  | cons dm rest ih =>
    simp only [dedupByKey]
    by_cases h1 : dedupKey dm ∈ seen
    · rw [if_pos h1, ih seen]
      by_cases h2 : dedupKey dm = k
      · have hk : k ∈ seen := h2 ▸ h1
        rw [if_pos hk, if_pos hk]
      · rw [List.filter_cons_of_neg (by simpa using h2)]
    · rw [if_neg h1]
      by_cases h2 : dedupKey dm = k
      · subst h2
        rw [List.filter_cons_of_pos (by simp), ih (dedupKey dm :: seen),
          if_pos (List.mem_cons_self _ _), if_neg h1,
          List.filter_cons_of_pos (by simp)]
        simp
      · rw [List.filter_cons_of_neg (by simpa using h2), ih (dedupKey dm :: seen),
          List.filter_cons_of_neg (by simpa using h2)]
        by_cases hk : k ∈ seen
        · rw [if_pos (List.mem_cons_of_mem _ hk), if_pos hk]
        · have hnc : k ∉ dedupKey dm :: seen := by
            simp only [List.mem_cons]
            rintro (he | hk2)
            · exact h2 he.symm
            · exact hk hk2
          rw [if_neg hnc, if_neg hk]

theorem dedupByKey_keys (l : List Contact) (seen : List Str) :
    (∀ dm ∈ dedupByKey l seen, dedupKey dm ∉ seen) ∧
      (dedupByKey l seen).Pairwise (fun a b => dedupKey a ≠ dedupKey b) := by
  induction l generalizing seen with
  | nil => simp [dedupByKey]
  | cons dm rest ih =>
    simp only [dedupByKey]
    by_cases h1 : dedupKey dm ∈ seen
    · rw [if_pos h1]; exact ih seen
    · rw [if_neg h1]
      obtain ⟨ihmem, ihpw⟩ := ih (dedupKey dm :: seen)
      refine ⟨?_, ?_⟩
      · intro x hx
        rcases List.mem_cons.mp hx with rfl | hx'
        · exact h1
        · exact fun hmem => ihmem x hx' (List.mem_cons_of_mem _ hmem)
      · refine List.Pairwise.cons ?_ ihpw
        intro b hb heq
        exact ihmem b hb (List.mem_cons.mpr (Or.inl heq.symm))

/-- C1 (counterexample): the two contacts of `c1CollisionLead` have distinct
composite keys `(name, role, linkedin-or-empty)`, yet `getDisplayDecisionMakers`
drops the second one, so it is not the first-occurrence filter per composite
key that the claim describes (`specNormalize`). -/
theorem c1_counterexample :
    specCompositeKey c1ContactA ≠ specCompositeKey c1ContactB ∧
      getDisplayDecisionMakers c1CollisionLead = [c1ContactA] ∧
      specNormalize c1CollisionLead = [c1ContactA, c1ContactB] ∧
      getDisplayDecisionMakers c1CollisionLead ≠ specNormalize c1CollisionLead := by
  refine ⟨by decide, by decide, by decide, by decide⟩

/-- C1 (amended): `getDisplayDecisionMakers` returns the concatenation of
`decision_makers` and `head_of_data` filtered to the first occurrence per
the hyphen-joined string key `name-role-(linkedin-or-empty)` (which can
conflate distinct composite triples whose fields contain hyphens): the
output is a subsequence of the concatenation (order preserved), its string
keys are pairwise distinct, per key exactly the first occurrence — with its
email — survives, and the spec's dedup example yields exactly one entry. -/
theorem c1_amended (lead : Lead) :
    (getDisplayDecisionMakers lead).Sublist (combinedContacts lead) ∧
      (getDisplayDecisionMakers lead).Pairwise (fun a b => dedupKey a ≠ dedupKey b) ∧
      (∀ k : Str, (getDisplayDecisionMakers lead).filter (fun dm => decide (dedupKey dm = k)) =
        ((combinedContacts lead).filter fun dm => decide (dedupKey dm = k)).take 1) ∧
      getDisplayDecisionMakers c1ExampleLead = [⟨"A".data, "CTO".data, none, none⟩] := by
  refine ⟨dedupByKey_sublist _ _, (dedupByKey_keys _ _).2, ?_, by decide⟩
  intro k
  have h := dedupByKey_filter k (combinedContacts lead) []
  rw [if_neg (List.not_mem_nil k)] at h
  exact h

/-- C2: `escapeCsv` maps `null`/absent to the empty string, wraps a field
in double quotes with internal quotes doubled exactly when it contains a
comma, double quote or newline, leaves every other field unchanged, and
serializes `Acme, "Inc"` as `"Acme, ""Inc"""`. -/
theorem c2_escapeCsv :
    escapeCsv none = [] ∧
      (∀ s : Str, containsSpecialChar s = true ↔ (',' ∈ s ∨ '"' ∈ s ∨ '\n' ∈ s)) ∧
      (∀ s : Str, containsSpecialChar s = false → escapeCsv (some s) = s) ∧
      (∀ s : Str, containsSpecialChar s = true →
        escapeCsv (some s) = '"' :: (doubleQuotesIn s ++ ['"'])) ∧
      (∀ s : Str, (doubleQuotesIn s).count '"' = 2 * s.count '"') ∧
      escapeCsv (some "Acme, \"Inc\"".data) = "\"Acme, \"\"Inc\"\"\"".data := by
  refine ⟨rfl, ?_, ?_, ?_, ?_, by decide⟩
  · intro s
    simp only [containsSpecialChar, List.any_eq_true, Bool.or_eq_true, decide_eq_true_eq]
    constructor
    · rintro ⟨a, ha, h⟩
      rcases h with (h | h) | h <;> subst h
      · exact Or.inr (Or.inl ha)
      · exact Or.inl ha
      · exact Or.inr (Or.inr ha)
    · rintro (h | h | h)
      · exact ⟨',', h, Or.inl (Or.inr rfl)⟩
      · exact ⟨'"', h, Or.inl (Or.inl rfl)⟩
      · exact ⟨'\n', h, Or.inr rfl⟩
  · intro s h; simp [escapeCsv, h]
  · intro s h; simp [escapeCsv, h]
  · intro s
    induction s with
    | nil => simp [doubleQuotesIn]
    | cons c rest ih =>
      by_cases h : c = '"'
      · subst h
        simp only [doubleQuotesIn, if_pos rfl, List.cons_append, List.nil_append,
          List.count_cons, ih]
        simp [List.count_cons]
        omega
      · simp only [doubleQuotesIn, if_neg h, List.cons_append, List.nil_append,
          List.count_cons, ih]
        simp [h]

/-- C2 (witness): the two conditional branches of `c2_escapeCsv`
instantiated at concrete fields. -/
theorem c2_escapeCsv_witness :
    escapeCsv (some "abc".data) = "abc".data ∧
      escapeCsv (some "a,b".data) = '"' :: (doubleQuotesIn "a,b".data ++ ['"']) :=
  ⟨c2_escapeCsv.2.2.1 "abc".data (by decide),
    c2_escapeCsv.2.2.2.1 "a,b".data (by decide)⟩

/-- C7: the contact-count predicate compares the raw `decision_makers`
length (absent counts as 0) against `minContacts` and passes iff that raw
length is at least the threshold; it depends only on the raw
`decision_makers` field, and a lead whose two raw contacts dedup to one
entry still passes the threshold 2. -/
theorem c7_minContacts (lead : Lead) (minCount : Nat) :
    (matchesDecisionMakers minCount lead = true ↔
        minCount ≤ (lead.decision_makers.getD []).length) ∧
      (lead.decision_makers = none →
        (matchesDecisionMakers minCount lead = true ↔ minCount = 0)) ∧
      (∀ l₂ : Lead, l₂.decision_makers = lead.decision_makers →
        matchesDecisionMakers minCount l₂ = matchesDecisionMakers minCount lead) ∧
      ((getDisplayDecisionMakers c7DupLead).length = 1 ∧
        filteredLeads [c7DupLead] [] 2 false = [c7DupLead]) := by
  refine ⟨?_, ?_, ?_, by decide⟩
  · simp [matchesDecisionMakers, ge_iff_le]
  · intro h; simp [matchesDecisionMakers, h, Nat.le_zero]
  · intro l₂ h; simp [matchesDecisionMakers, h]

/-- C7 (witness): the conditional parts of `c7_minContacts` instantiated at
concrete leads. -/
theorem c7_minContacts_witness :
    (matchesDecisionMakers 0 c7NoneLead = true ↔ (0 : Nat) = 0) ∧
      matchesDecisionMakers 1 c7DupLead = matchesDecisionMakers 1 c7DupLead :=
  ⟨(c7_minContacts c7NoneLead 0).2.1 rfl,
    (c7_minContacts c7DupLead 1).2.2.1 c7DupLead rfl⟩

/-- C8: with the search text and head-of-data options fixed, raising
`minContacts` from `m₁` to `m₂ ≥ m₁` yields a filtered result that is a
subsequence of the `m₁` result, hence never longer. -/
theorem c8_monotone (leads : List Lead) (q : Str) (rh : Bool) (m₁ m₂ : Nat)
    (h : m₁ ≤ m₂) :
    (filteredLeads leads q m₂ rh).Sublist (filteredLeads leads q m₁ rh) ∧
      (filteredLeads leads q m₂ rh).length ≤ (filteredLeads leads q m₁ rh).length := by
  have hsub : (filteredLeads leads q m₂ rh).Sublist (filteredLeads leads q m₁ rh) := by
    apply List.monotone_filter_right
    intro lead hl
    simp only [leadPasses, Bool.and_eq_true, matchesDecisionMakers, ge_iff_le,
      decide_eq_true_eq] at hl ⊢
    exact ⟨⟨hl.1.1, le_trans h hl.1.2⟩, hl.2⟩
  exact ⟨hsub, hsub.length_le⟩

/-- C8 (witness): `c8_monotone` instantiated at thresholds 0 and 1 over a
concrete two-lead list. -/
theorem c8_monotone_witness :
    (filteredLeads c8Leads [] 1 false).Sublist (filteredLeads c8Leads [] 0 false) ∧
      (filteredLeads c8Leads [] 1 false).length ≤ (filteredLeads c8Leads [] 0 false).length :=
  c8_monotone c8Leads [] false 0 1 (by decide)

/-! ### Lowercasing and trimming lemmas for the search pipeline -/

theorem jsToLowerChar_toNat {c : Char} (h : 65 ≤ c.toNat ∧ c.toNat ≤ 90) :
    (jsToLowerChar c).toNat = c.toNat + 32 := by
  simp only [jsToLowerChar, dif_pos h]
  rfl

theorem jsToLowerChar_eq_self {c : Char} (h : ¬(65 ≤ c.toNat ∧ c.toNat ≤ 90)) :
    jsToLowerChar c = c := by
  simp only [jsToLowerChar, dif_neg h]

theorem jsToLowerChar_idem (c : Char) :
    jsToLowerChar (jsToLowerChar c) = jsToLowerChar c := by
  by_cases h : 65 ≤ c.toNat ∧ c.toNat ≤ 90
  · apply jsToLowerChar_eq_self
    rw [jsToLowerChar_toNat h]
    omega
  · rw [jsToLowerChar_eq_self h]
    exact jsToLowerChar_eq_self h

theorem mem_jsToLower_fix {s : Str} {c : Char} (h : c ∈ jsToLower s) :
    jsToLowerChar c = c := by
  obtain ⟨a, _, rfl⟩ := List.mem_map.mp h
  exact jsToLowerChar_idem a

theorem jsToLower_eq_self {s t : Str} (hsub : s ⊆ jsToLower t) :
    jsToLower s = s := by
  have h : ∀ c ∈ s, jsToLowerChar c = c := fun c hc => mem_jsToLower_fix (hsub hc)
  exact (List.map_congr_left h).trans (List.map_id' s)

theorem jsTrim_part (s : Str) : jsTrim s <:+: s := by
  refine List.infix_iff_prefix_suffix.mpr ⟨s.dropWhile jsIsSpace, ?_, ?_⟩
  · exact List.rdropWhile_prefix _ _
  · exact List.dropWhile_suffix _

theorem matchesQuery_of_part {L : Lead} {s : Str} (h : s <:+: getSearchHaystack L) :
    matchesQuery (jsToLower (jsTrim s)) L = true := by
  have htrim : jsTrim s <:+: getSearchHaystack L := (jsTrim_part s).trans h
  have hfix : jsToLower (jsTrim s) = jsTrim s :=
    jsToLower_eq_self (t := joinWith [' '] (haystackParts L)) htrim.sublist.subset
  rw [hfix]
  simp only [matchesQuery, jsIncludes, Bool.or_eq_true, decide_eq_true_eq]
  exact Or.inr htrim

/-- Lead used in the C4 witness. -/
def c4Lead : Lead := ⟨"Acme".data, none, some [], none⟩

/-- C4: any substring of a lead's haystack, used as the search text with
default filter options (`minContacts = 0`, `requireHeadOfData = false`),
keeps that lead; a search text that trims to empty makes the search
predicate true for every lead and the filter keep everything. -/
theorem c4_search :
    (∀ (L : Lead) (s : Str), s <:+: getSearchHaystack L →
        filteredLeads [L] s 0 false = [L]) ∧
      (∀ (s : Str) (L : Lead), jsTrim s = [] →
        matchesQuery (jsToLower (jsTrim s)) L = true) ∧
      (∀ (leads : List Lead) (s : Str), jsTrim s = [] →
        filteredLeads leads s 0 false = leads) := by
  refine ⟨?_, ?_, ?_⟩
  · intro L s h
    have hq := matchesQuery_of_part h
    simp [filteredLeads, List.filter_cons, leadPasses, hq, matchesDecisionMakers,
      matchesHeadOfData]
  · intro s L h
    rw [h]
    simp [jsToLower, matchesQuery]
  · intro leads s h
    simp only [filteredLeads, h]
    apply List.filter_eq_self.mpr
    intro a _
    simp [leadPasses, matchesQuery, jsToLower, matchesDecisionMakers, matchesHeadOfData]

/-- C4 (witness): `c4_search` applied to a concrete lead, a concrete
substring of its haystack, and a whitespace search text. -/
theorem c4_search_witness :
    filteredLeads [c4Lead] "acme".data 0 false = [c4Lead] ∧
      matchesQuery (jsToLower (jsTrim " ".data)) c4Lead = true ∧
      filteredLeads [c4Lead] " ".data 0 false = [c4Lead] :=
  ⟨c4_search.1 c4Lead "acme".data (by decide),
    c4_search.2.1 " ".data c4Lead (by decide),
    c4_search.2.2 [c4Lead] " ".data (by decide)⟩

/-- Lead with every optional field absent, used in the C9 witness. -/
def c9Lead : Lead := ⟨"X".data, none, none, none⟩

/-- C9: the pipeline treats every absent optional field as empty: an absent
`decision_makers` list behaves exactly as the empty list for dedup, CSV and
search; an absent `head_of_data` contributes nothing to the normalized list
and serializes as four empty fields; an absent `url` serializes as the
empty string (never the text `null` or `undefined`); an absent or invalid
email contributes the empty string; an absent `linkedin_url` contributes
the empty string to the dedup key.  All operations are total functions of
the lead. -/
theorem c9_absent_fields (lead : Lead) :
    (lead.decision_makers = none →
        getDisplayDecisionMakers lead =
            getDisplayDecisionMakers { lead with decision_makers := some [] } ∧
          buildCsv [lead] = buildCsv [{ lead with decision_makers := some [] }] ∧
          getSearchHaystack lead = getSearchHaystack { lead with decision_makers := some [] }) ∧
      (lead.head_of_data = none →
        getDisplayDecisionMakers lead = dedupByKey (lead.decision_makers.getD []) [] ∧
          (csvFields lead).drop 6 = [some [], some [], some [], some []]) ∧
      (lead.url = none →
        ((csvFields lead).map escapeCsv)[1]? = some [] ∧
          ([] : Str) ≠ "null".data ∧ ([] : Str) ≠ "undefined".data) ∧
      (lead.head_of_data.bind Contact.email = none → headOfDataEmailField lead = []) ∧
      (∀ dm : Contact, dm.email = none → emailOrEmpty dm = []) ∧
      (∀ dm : Contact, dm.linkedin_url = none →
        dedupKey dm = dm.name ++ '-' :: dm.role ++ ['-']) := by
  refine ⟨?_, ?_, ?_, ?_, ?_, ?_⟩
  · intro h
    have hc : combinedContacts lead = combinedContacts { lead with decision_makers := some [] } := by
      simp [combinedContacts, h]
    have hd : getDisplayDecisionMakers lead =
        getDisplayDecisionMakers { lead with decision_makers := some [] } := by
      simp [getDisplayDecisionMakers, hc]
    refine ⟨hd, ?_, ?_⟩
    · simp [buildCsv, csvRow, csvFields, hd, h, headOfDataEmailField]
    · simp [getSearchHaystack, haystackParts, hd, h, headOfDataEmailField]
  · intro h
    constructor
    · simp [getDisplayDecisionMakers, combinedContacts, h]
    · simp [csvFields, headOfDataEmailField, h, isValidEmail]
  · intro h
    refine ⟨?_, by decide, by decide⟩
    simp [csvFields, h, escapeCsv]
  · intro h
    simp [headOfDataEmailField, h, isValidEmail]
  · intro dm h
    simp [emailOrEmpty, h, isValidEmail]
  · intro dm h
    simp [dedupKey, h]

/-- C9 (witness): `c9_absent_fields` applied to a lead with every optional
field absent. -/
theorem c9_absent_fields_witness :
    getDisplayDecisionMakers c9Lead =
        getDisplayDecisionMakers { c9Lead with decision_makers := some [] } ∧
      (csvFields c9Lead).drop 6 = [some [], some [], some [], some []] ∧
      ((csvFields c9Lead).map escapeCsv)[1]? = some [] ∧
      headOfDataEmailField c9Lead = [] ∧
      emailOrEmpty ⟨"N".data, "R".data, none, none⟩ = [] :=
  ⟨((c9_absent_fields c9Lead).1 rfl).1, ((c9_absent_fields c9Lead).2.1 rfl).2,
    ((c9_absent_fields c9Lead).2.2.1 rfl).1, (c9_absent_fields c9Lead).2.2.2.1 rfl,
    (c9_absent_fields c9Lead).2.2.2.2.1 ⟨"N".data, "R".data, none, none⟩ rfl⟩

/-! ### Containment through joined strings, for the email claims -/

theorem part_of_joinWith {p : Str} {parts : List Str} (sep : Str) (h : p ∈ parts) :
    p <:+: joinWith sep parts := by
  induction parts with
  | nil => cases h
  | cons x rest ih =>
    cases rest with
    | nil =>
      rcases List.mem_singleton.mp h with rfl
      exact List.infix_refl p
    | cons y r =>
      rcases List.mem_cons.mp h with rfl | h'
      · exact ⟨[], sep ++ joinWith sep (y :: r), by simp [joinWith]⟩
      · exact (ih h').trans ⟨x ++ sep, [], by simp [joinWith]⟩

theorem isPartMap (f : Char → Char) {l₁ l₂ : Str} (h : l₁ <:+: l₂) :
    l₁.map f <:+: l₂.map f := by
  obtain ⟨s, t, rfl⟩ := h
  exact ⟨s.map f, t.map f, by simp⟩

theorem emails_filter_eq (dms : List Contact) :
    (dms.map emailOrEmpty).filter (fun s => !s.isEmpty) = dms.filterMap validEmailOf := by
  induction dms with
  | nil => rfl
  | cons dm rest ih =>
    cases hm : dm.email with
    | none =>
      simp [emailOrEmpty, validEmailOf, hm, isValidEmail, ih]
    | some e =>
      by_cases ha : '@' ∈ e
      · have hne : e ≠ [] := List.ne_nil_of_mem ha
        simp [emailOrEmpty, validEmailOf, hm, isValidEmail, ha, ih, hne]
      · simp [emailOrEmpty, validEmailOf, hm, isValidEmail, ha, ih]

/-- Decision maker with an invalid email, used in the C5 concrete lead. -/
def c5Jo : Contact := ⟨"Jo".data, "VP".data, none, some "not-an-email".data⟩

/-- Decision maker with a valid email, used in the C5 concrete lead. -/
def c5Moe : Contact := ⟨"Moe".data, "CTO".data, none, some "a@b.com".data⟩

/-- Head of data whose email is the empty string (invalid). -/
def c5Head : Contact := ⟨"Dana".data, "HoD".data, none, some []⟩

/-- Concrete lead exercising valid, invalid and empty emails. -/
def c5Lead : Lead := ⟨"Acme".data, none, some [c5Jo, c5Moe], some c5Head⟩

set_option maxRecDepth 8000 in
/-- C5: the `decision_maker_emails` column is exactly the pipe-join of the
valid (`@`-containing) emails of the normalized contacts, with invalid ones
omitted entirely; an invalid or absent head-of-data email yields an empty
field; a valid email of a normalized contact appears (lowercased) in the
haystack and in the emails column; and on a concrete lead the invalid email
`not-an-email` appears in neither the haystack nor the CSV while the valid
`a@b.com` appears in both. -/
theorem c5_email_validity :
    (∀ dms : List Contact,
        decisionMakerEmails dms = joinWith " | ".data (dms.filterMap validEmailOf)) ∧
      (∀ lead : Lead, isValidEmail (lead.head_of_data.bind Contact.email) = false →
        headOfDataEmailField lead = []) ∧
      (∀ (lead : Lead) (dm : Contact) (e : Str), dm ∈ getDisplayDecisionMakers lead →
        dm.email = some e → '@' ∈ e →
        e <:+: decisionMakerEmails (getDisplayDecisionMakers lead) ∧
          jsToLower e <:+: getSearchHaystack lead) ∧
      (¬("not-an-email".data <:+: getSearchHaystack c5Lead) ∧
        ¬("not-an-email".data <:+: buildCsv [c5Lead]) ∧
        "a@b.com".data <:+: getSearchHaystack c5Lead ∧
        "a@b.com".data <:+: buildCsv [c5Lead] ∧
        decisionMakerEmails (getDisplayDecisionMakers c5Lead) = "a@b.com".data ∧
        headOfDataEmailField c5Lead = []) := by
  refine ⟨?_, ?_, ?_, by decide, by decide, by decide, by decide, by decide, by decide⟩
  · intro dms
    rw [decisionMakerEmails, emails_filter_eq]
  · intro lead h
    simp [headOfDataEmailField, h]
  · intro lead dm e hdm he ha
    constructor
    · have hmem : e ∈ (getDisplayDecisionMakers lead).filterMap validEmailOf :=
        List.mem_filterMap.mpr ⟨dm, hdm, by simp [validEmailOf, he, ha]⟩
      have hcol : decisionMakerEmails (getDisplayDecisionMakers lead) =
          joinWith " | ".data ((getDisplayDecisionMakers lead).filterMap validEmailOf) := by
        rw [decisionMakerEmails, emails_filter_eq]
      rw [hcol]
      exact part_of_joinWith _ hmem
    · have h1 : emailOrEmpty dm = e := by simp [emailOrEmpty, isValidEmail, he, ha]
      have h2 : e ∈ (getDisplayDecisionMakers lead).map emailOrEmpty :=
        List.mem_map.mpr ⟨dm, hdm, h1⟩
      have h4 : joinWith [' '] ((getDisplayDecisionMakers lead).map emailOrEmpty) ∈
          haystackParts lead := by
        simp [haystackParts]
      have h5 := (part_of_joinWith [' '] h2).trans (part_of_joinWith [' '] h4)
      exact isPartMap jsToLowerChar h5

/-- C5 (witness): `c5_email_validity` applied to the concrete lead and its
valid-email contact. -/
theorem c5_email_validity_witness :
    headOfDataEmailField c5Lead = [] ∧
      "a@b.com".data <:+: decisionMakerEmails (getDisplayDecisionMakers c5Lead) ∧
      jsToLower "a@b.com".data <:+: getSearchHaystack c5Lead :=
  ⟨c5_email_validity.2.1 c5Lead (by decide),
    (c5_email_validity.2.2.1 c5Lead c5Moe "a@b.com".data (by decide) rfl (by decide)).1,
    (c5_email_validity.2.2.1 c5Lead c5Moe "a@b.com".data (by decide) rfl (by decide)).2⟩

/-! ### Newline bookkeeping for the CSV shape claim -/

/-- Newline-freeness of a string, as a decidable check. -/
def strNlFree (s : Str) : Bool :=
  s.all fun c => decide (c ≠ '\n')

/-- Newline-freeness of all fields of a contact. -/
def contactNlFree (dm : Contact) : Bool :=
  strNlFree dm.name && strNlFree dm.role && strNlFree (dm.linkedin_url.getD []) &&
    strNlFree (dm.email.getD [])

/-- Newline-freeness of all fields of a lead. -/
def leadNlFree (lead : Lead) : Bool :=
  strNlFree lead.company && strNlFree (lead.url.getD []) &&
    (lead.decision_makers.getD []).all contactNlFree &&
    (match lead.head_of_data with
     | some h => contactNlFree h
     | none => true)

theorem strNlFree_iff {s : Str} : strNlFree s = true ↔ '\n' ∉ s := by
  simp only [strNlFree, List.all_eq_true, decide_eq_true_eq]
  constructor
  · intro h hm
    exact h '\n' hm rfl
  · intro h c hc he
    exact h (he ▸ hc)

theorem splitOnNl_ne_nil (s : Str) : splitOnNl s ≠ [] := by
  induction s with
  | nil => simp [splitOnNl]
  | cons c rest ih =>
    simp only [splitOnNl]
    split
    · simp
    · split <;> simp

theorem splitOnNl_nlfree {s : Str} (h : '\n' ∉ s) : splitOnNl s = [s] := by
  induction s with
  | nil => rfl
  | cons c rest ih =>
    have h2 : '\n' ∉ rest := fun hm => h (List.mem_cons_of_mem _ hm)
    have hc : ¬c = '\n' := fun hc => h (hc ▸ List.mem_cons_self c rest)
    simp only [splitOnNl, ih h2]
    rw [if_neg hc]

theorem splitOnNl_append {x : Str} (h : '\n' ∉ x) (s : Str) :
    splitOnNl (x ++ '\n' :: s) = x :: splitOnNl s := by
  induction x with
  | nil =>
    simp only [List.nil_append, splitOnNl]
    cases hsp : splitOnNl s with
    | nil => exact absurd hsp (splitOnNl_ne_nil s)
    | cons p ps => simp
  | cons c rest ih =>
    have h2 : '\n' ∉ rest := fun hm => h (List.mem_cons_of_mem _ hm)
    have hc : ¬c = '\n' := fun hc => h (hc ▸ List.mem_cons_self c _)
    simp only [List.cons_append, splitOnNl, List.append_eq, ih h2]
    rw [if_neg hc]

theorem splitOnNl_joinWith (parts : List Str) (hne : parts ≠ [])
    (hall : ∀ p ∈ parts, '\n' ∉ p) :
    splitOnNl (joinWith ['\n'] parts) = parts := by
  induction parts with
  | nil => exact absurd rfl hne
  | cons x rest ih =>
    cases rest with
    | nil => exact splitOnNl_nlfree (hall x (List.mem_cons_self x []))
    | cons y r =>
      have hx : '\n' ∉ x := hall x (List.mem_cons_self _ _)
      have hjoin : joinWith ['\n'] (x :: y :: r) = x ++ '\n' :: joinWith ['\n'] (y :: r) := by
        simp [joinWith]
      rw [hjoin, splitOnNl_append hx,
        ih (List.cons_ne_nil y r) fun p hp => hall p (List.mem_cons_of_mem _ hp)]

theorem nl_notin_joinWith {sep : Str} {parts : List Str} (hsep : '\n' ∉ sep)
    (hp : ∀ p ∈ parts, '\n' ∉ p) : '\n' ∉ joinWith sep parts := by
  induction parts with
  | nil => simp [joinWith]
  | cons x rest ih =>
    cases rest with
    | nil => exact hp x (List.mem_cons_self _ _)
    | cons y r =>
      simp only [joinWith, List.append_assoc, List.mem_append]
      rintro (h1 | h2 | h3)
      · exact hp x (List.mem_cons_self _ _) h1
      · exact hsep h2
      · exact ih (fun p hp' => hp p (List.mem_cons_of_mem _ hp')) h3

theorem mem_doubleQuotesIn {c : Char} {s : Str} (h : c ∈ doubleQuotesIn s) :
    c = '"' ∨ c ∈ s := by
  induction s with
  | nil => cases h
  | cons a rest ih =>
    simp only [doubleQuotesIn] at h
    rcases List.mem_append.mp h with h1 | h2
    · by_cases ha : a = '"'
      · rw [if_pos ha] at h1
        rcases List.mem_cons.mp h1 with rfl | h1'
        · exact Or.inl rfl
        · exact Or.inl (List.mem_singleton.mp h1')
      · rw [if_neg ha] at h1
        exact Or.inr ((List.mem_singleton.mp h1) ▸ List.mem_cons_self a rest)
    · rcases ih h2 with h | h
      · exact Or.inl h
      · exact Or.inr (List.mem_cons_of_mem _ h)

theorem nl_notin_escapeCsv {v : Option Str} (h : ∀ s, v = some s → '\n' ∉ s) :
    '\n' ∉ escapeCsv v := by
  cases v with
  | none => simp [escapeCsv]
  | some s =>
    have hs : '\n' ∉ s := h s rfl
    simp only [escapeCsv]
    split
    · intro hm
      rcases List.mem_cons.mp hm with he | hm2
      · exact absurd he (by decide)
      · rcases List.mem_append.mp hm2 with h3 | h4
        · rcases mem_doubleQuotesIn h3 with he | hmem
          · exact absurd he (by decide)
          · exact hs hmem
        · exact absurd (List.mem_singleton.mp h4) (by decide)
    · exact hs

theorem contactNlFree_parts {dm : Contact} (h : contactNlFree dm = true) :
    '\n' ∉ dm.name ∧ '\n' ∉ dm.role ∧ '\n' ∉ dm.linkedin_url.getD [] ∧
      '\n' ∉ dm.email.getD [] := by
  simp only [contactNlFree, Bool.and_eq_true, strNlFree_iff] at h
  exact ⟨h.1.1.1, h.1.1.2, h.1.2, h.2⟩

theorem nl_notin_emailOrEmpty {dm : Contact} (h : '\n' ∉ dm.email.getD []) :
    '\n' ∉ emailOrEmpty dm := by
  unfold emailOrEmpty
  split
  · exact h
  · simp

theorem csvRow_nl_free {lead : Lead} (h : leadNlFree lead = true) :
    '\n' ∉ csvRow lead := by
  simp only [leadNlFree, Bool.and_eq_true] at h
  have hcomp : '\n' ∉ lead.company := strNlFree_iff.mp h.1.1.1
  have hurl : '\n' ∉ lead.url.getD [] := strNlFree_iff.mp h.1.1.2
  have hdms : ∀ dm ∈ lead.decision_makers.getD [], contactNlFree dm = true :=
    List.all_eq_true.mp h.1.2
  have hhead : ∀ hd, lead.head_of_data = some hd → contactNlFree hd = true := by
    intro hd hsome
    have := h.2
    rw [hsome] at this
    exact this
  have hcombined : ∀ dm ∈ combinedContacts lead, contactNlFree dm = true := by
    intro dm hm
    rcases List.mem_append.mp hm with hm1 | hm2
    · exact hdms dm hm1
    · rcases hh : lead.head_of_data with _ | hd
      · rw [hh] at hm2
        cases hm2
      · rw [hh] at hm2
        exact (List.mem_singleton.mp hm2) ▸ hhead hd hh
  have hdisplay : ∀ dm ∈ getDisplayDecisionMakers lead, contactNlFree dm = true :=
    fun dm hm => hcombined dm ((dedupByKey_sublist _ _).subset hm)
  have hname : '\n' ∉ decisionMakerNames (getDisplayDecisionMakers lead) := by
    apply nl_notin_joinWith (by decide)
    intro p hp
    obtain ⟨dm, hdm, rfl⟩ := List.mem_map.mp hp
    exact (contactNlFree_parts (hdisplay dm hdm)).1
  have hrole : '\n' ∉ decisionMakerRoles (getDisplayDecisionMakers lead) := by
    apply nl_notin_joinWith (by decide)
    intro p hp
    obtain ⟨dm, hdm, rfl⟩ := List.mem_map.mp hp
    exact (contactNlFree_parts (hdisplay dm hdm)).2.1
  have hlink : '\n' ∉ decisionMakerLinkedins (getDisplayDecisionMakers lead) := by
    apply nl_notin_joinWith (by decide)
    intro p hp
    obtain ⟨dm, hdm, rfl⟩ := List.mem_map.mp hp
    exact (contactNlFree_parts (hdisplay dm hdm)).2.2.1
  have hmail : '\n' ∉ decisionMakerEmails (getDisplayDecisionMakers lead) := by
    apply nl_notin_joinWith (by decide)
    intro p hp
    have hp2 := List.mem_of_mem_filter hp
    obtain ⟨dm, hdm, rfl⟩ := List.mem_map.mp hp2
    exact nl_notin_emailOrEmpty (contactNlFree_parts (hdisplay dm hdm)).2.2.2
  have hheadname : '\n' ∉ (lead.head_of_data.map Contact.name).getD [] := by
    rcases hh : lead.head_of_data with _ | hd
    · simp
    · simpa using (contactNlFree_parts (hhead hd hh)).1
  have hheadrole : '\n' ∉ (lead.head_of_data.map Contact.role).getD [] := by
    rcases hh : lead.head_of_data with _ | hd
    · simp
    · simpa using (contactNlFree_parts (hhead hd hh)).2.1
  have hheadlink : '\n' ∉ (lead.head_of_data.bind Contact.linkedin_url).getD [] := by
    rcases hh : lead.head_of_data with _ | hd
    · simp
    · simpa using (contactNlFree_parts (hhead hd hh)).2.2.1
  have hheadmail : '\n' ∉ headOfDataEmailField lead := by
    unfold headOfDataEmailField
    split
    · rcases hh : lead.head_of_data with _ | hd
      · simp [hh]
      · simpa [hh] using (contactNlFree_parts (hhead hd hh)).2.2.2
    · simp
  apply nl_notin_joinWith (by decide)
  intro p hp
  obtain ⟨v, hv, rfl⟩ := List.mem_map.mp hp
  apply nl_notin_escapeCsv
  intro s hs
  simp only [csvFields, List.mem_cons, List.not_mem_nil, or_false] at hv
  rcases hv with rfl | rfl | rfl | rfl | rfl | rfl | rfl | rfl | rfl | rfl
  · exact (Option.some_inj.mp hs) ▸ hcomp
  · have : lead.url.getD [] = s := by rw [hs]; rfl
    exact this ▸ hurl
  · exact (Option.some_inj.mp hs) ▸ hname
  · exact (Option.some_inj.mp hs) ▸ hrole
  · exact (Option.some_inj.mp hs) ▸ hlink
  · exact (Option.some_inj.mp hs) ▸ hmail
  · exact (Option.some_inj.mp hs) ▸ hheadname
  · exact (Option.some_inj.mp hs) ▸ hheadrole
  · exact (Option.some_inj.mp hs) ▸ hheadlink
  · exact (Option.some_inj.mp hs) ▸ hheadmail

/-- Lead whose company name contains a newline, for the C3 counterexample. -/
def c3NewlineLead : Lead := ⟨('A' :: '\n' :: ['B']), none, some [], none⟩

/-- Newline-free lead used in the C3 witness. -/
def c3Lead : Lead :=
  ⟨"Acme".data, some "acme.com".data,
    some [⟨"Jo".data, "VP".data, none, some "jo@a.co".data⟩], none⟩

set_option maxRecDepth 8000 in
/-- C3 (counterexample): a lead whose company contains a newline is quoted
by `escapeCsv`, but the newline stays in the output, so splitting on the
newline character yields 3 parts for one lead, not 2. -/
theorem c3_counterexample :
    (splitOnNl (buildCsv [c3NewlineLead])).length = 3 ∧
      (splitOnNl (buildCsv [c3NewlineLead])).length ≠ [c3NewlineLead].length + 1 := by
  exact ⟨by decide, by decide⟩

set_option maxRecDepth 8000 in
/-- C3 (amended): `buildCsv` emits the fixed ten-column header as the first
line and one newline-joined row per lead with no trailing newline;
`buildCsv []` is exactly the header line; and provided no lead field
contains a newline character, splitting the output on the newline character
yields exactly `leads.length + 1` parts, the header followed by the rows. -/
theorem c3_toCsv (leads : List Lead) :
    buildCsv [] = csvHeaderLine ∧
      csvHeaderLine = ("company,url,decision_makers,decision_maker_roles," ++
        "decision_maker_linkedins,decision_maker_emails,head_of_data_name," ++
        "head_of_data_role,head_of_data_linkedin,head_of_data_email").data ∧
      ((∀ l ∈ leads, leadNlFree l = true) →
        splitOnNl (buildCsv leads) = csvHeaderLine :: leads.map csvRow ∧
          (splitOnNl (buildCsv leads)).length = leads.length + 1) := by
  refine ⟨rfl, by decide, ?_⟩
  intro hall
  have hsplit : splitOnNl (buildCsv leads) = csvHeaderLine :: leads.map csvRow := by
    simp only [buildCsv]
    apply splitOnNl_joinWith
    · exact List.cons_ne_nil _ _
    · intro p hp
      rcases List.mem_cons.mp hp with rfl | hp'
      · decide
      · obtain ⟨l, hl, rfl⟩ := List.mem_map.mp hp'
        exact csvRow_nl_free (hall l hl)
  refine ⟨hsplit, ?_⟩
  rw [hsplit]
  simp

set_option maxRecDepth 8000 in
/-- C3 (witness): `c3_toCsv` applied to a concrete newline-free lead. -/
theorem c3_toCsv_witness :
    splitOnNl (buildCsv [c3Lead]) = csvHeaderLine :: [c3Lead].map csvRow ∧
      (splitOnNl (buildCsv [c3Lead])).length = [c3Lead].length + 1 :=
  (c3_toCsv [c3Lead]).2.2 (by decide)

/-- C10: for every option combination the filter output is a subsequence of
the input list: every returned lead is an element of the input, occurs no
more often than there, and relative order is the input's. -/
theorem c10_subsequence (leads : List Lead) (q : Str) (m : Nat) (rh : Bool) :
    (filteredLeads leads q m rh).Sublist leads ∧
      (∀ l ∈ filteredLeads leads q m rh, l ∈ leads) ∧
      (∀ l : Lead, (filteredLeads leads q m rh).count l ≤ leads.count l) := by
  have h : (filteredLeads leads q m rh).Sublist leads := List.filter_sublist leads
  exact ⟨h, fun l hl => h.subset hl, fun l => h.count_le l⟩

/-! ### Order lemmas for the spec-modelled company sort -/

theorem strLe_refl (s : Str) : strLe s s = true := by
  induction s with
  | nil => rfl
  | cons c rest ih => simp [strLe, ih]

theorem strLe_total (a b : Str) : strLe a b = true ∨ strLe b a = true := by
  induction a generalizing b with
  | nil => exact Or.inl rfl
  | cons c as ih =>
    cases b with
    | nil => exact Or.inr rfl
    | cons d bs =>
      by_cases h1 : c.toNat < d.toNat
      · exact Or.inl (by simp [strLe, h1])
      · by_cases h2 : d.toNat < c.toNat
        · exact Or.inr (by simp [strLe, h2])
        · rcases ih bs with h | h
          · exact Or.inl (by simp [strLe, h1, h2, h])
          · exact Or.inr (by simp [strLe, h1, h2, h])

theorem strLe_head {x y : Char} {as bs : Str} (h : strLe (x :: as) (y :: bs) = true) :
    x.toNat < y.toNat ∨ (x.toNat = y.toNat ∧ strLe as bs = true) := by
  simp only [strLe] at h
  by_cases h1 : x.toNat < y.toNat
  · exact Or.inl h1
  · by_cases h2 : y.toNat < x.toNat
    · simp [h1, h2] at h
    · exact Or.inr ⟨by omega, by simpa [h1, h2] using h⟩

theorem strLe_trans {a b c : Str} (h1 : strLe a b = true) (h2 : strLe b c = true) :
    strLe a c = true := by
  induction a generalizing b c with
  | nil => rfl
  | cons x as ih =>
    cases b with
    | nil => simp [strLe] at h1
    | cons y bs =>
      cases c with
      | nil => simp [strLe] at h2
      | cons z cs =>
        rcases strLe_head h1 with hx | ⟨hx, hs1⟩ <;>
          rcases strLe_head h2 with hy | ⟨hy, hs2⟩
        · simp [strLe, show x.toNat < z.toNat by omega]
        · simp [strLe, show x.toNat < z.toNat by omega]
        · simp [strLe, show x.toNat < z.toNat by omega]
        · simp only [strLe, show ¬x.toNat < z.toNat by omega,
            show ¬z.toNat < x.toNat by omega, if_neg, if_false]
          exact ih hs1 hs2

instance : IsTotal Lead companyLe :=
  ⟨fun a b => strLe_total a.company b.company⟩

instance : IsTrans Lead companyLe :=
  ⟨fun _ _ _ => strLe_trans⟩

theorem queryByCompany_stable (leads : List Lead) (q : Str) (m : Nat) (rh : Bool)
    (k : Str) :
    (queryByCompany leads q m rh).filter (fun x => decide (x.company = k)) =
      (filteredLeads leads q m rh).filter (fun x => decide (x.company = k)) := by
  have hpw : ((filteredLeads leads q m rh).filter
      (fun x => decide (x.company = k))).Pairwise companyLe := by
    apply List.pairwise_of_forall_mem_list
    intro a ha b hb
    have ha' : a.company = k := by simpa using (List.mem_filter.mp ha).2
    have hb' : b.company = k := by simpa using (List.mem_filter.mp hb).2
    show strLe a.company b.company = true
    rw [ha', hb']
    exact strLe_refl k
  have hsub : ((filteredLeads leads q m rh).filter
        (fun x => decide (x.company = k))).Sublist
      (List.insertionSort companyLe (filteredLeads leads q m rh)) :=
    List.sublist_insertionSort hpw (List.filter_sublist _)
  have hself : ((filteredLeads leads q m rh).filter
        (fun x => decide (x.company = k))).filter (fun x => decide (x.company = k)) =
      (filteredLeads leads q m rh).filter (fun x => decide (x.company = k)) := by
    apply List.filter_eq_self.mpr
    intro a ha
    exact (List.mem_filter.mp ha).2
  have hsub2 : ((filteredLeads leads q m rh).filter
        (fun x => decide (x.company = k))).Sublist
      ((List.insertionSort companyLe (filteredLeads leads q m rh)).filter
        (fun x => decide (x.company = k))) := by
    have h := List.Sublist.filter (fun x => decide (x.company = k)) hsub
    rwa [hself] at h
  have hperm : ((List.insertionSort companyLe (filteredLeads leads q m rh)).filter
        (fun x => decide (x.company = k))).Perm
      ((filteredLeads leads q m rh).filter (fun x => decide (x.company = k))) :=
    (List.perm_insertionSort companyLe _).filter _
  exact (hsub2.eq_of_length hperm.length_eq.symm).symm

/-- Lead `Zeta` of the spec's sort scenario (spec §8). -/
def c6Zeta : Lead := ⟨"Zeta".data, none, some [], none⟩

/-- Lead `Alpha` of the spec's sort scenario (spec §8). -/
def c6Alpha : Lead := ⟨"Alpha".data, none, some [⟨"Jo".data, "VP".data, none, none⟩], none⟩

/-- C6 (spec-modelled): the `sortBy: company` query — absent from src, so
modelled from spec §4.3 as `queryByCompany` with `localeCompare` modelled
as code-point comparison — returns the filtered leads in ascending company
order; it is a permutation of the filter output and stable (the leads of
any one company keep their original relative order); on the spec's
scenario the companies come out as `Alpha`, `Zeta`. -/
theorem c6_sortByCompany (leads : List Lead) (q : Str) (m : Nat) (rh : Bool) :
    List.Sorted companyLe (queryByCompany leads q m rh) ∧
      (queryByCompany leads q m rh).Perm (filteredLeads leads q m rh) ∧
      (∀ k : Str, (queryByCompany leads q m rh).filter (fun x => decide (x.company = k)) =
        (filteredLeads leads q m rh).filter (fun x => decide (x.company = k))) ∧
      (queryByCompany [c6Zeta, c6Alpha] [] 0 false).map Lead.company =
        ["Alpha".data, "Zeta".data] := by
  exact ⟨List.sorted_insertionSort companyLe _, List.perm_insertionSort companyLe _,
    queryByCompany_stable leads q m rh, by decide⟩

end LeadsApp
